import Mathlib

/-!
Verification of the event-telemetry SDK (packages guck-py / hunch-py / grpr-py):
configuration-driven event emission with normalization, redaction, and durable
JSON-Lines append.  The Python sources are shallowly embedded: JSON-like Python
values become the inductive `JValue`, events become the structure `Event`, and
every operation of the pipeline (`_normalize_level`, `_coalesce`, `_to_event`,
`_normalize_key_set`, `_redact_string`, `_redact_value`, `redact_event`,
`_parse_timestamp`, `_format_date_segment`, `append_event`, `emit`, and the
stream-capture `write`) is translated function by function from
`src/packages/guck-py/src/guck/{emit,redact,store,auto}.py` (the hunch-py and
grpr-py variants share the code they have verbatim, minus the error-handling
and chmod extras that only guck-py has).

All definitions are structurally recursive and kernel-computable, so concrete
witnesses evaluate by `decide`/`rfl`.  String helpers are written over the
character list `String.data` (Python semantics, restricted to what the claims
exercise: ASCII case folding, the documented whitespace set, the line-break
set of `str.splitlines`).
-/

/-! ## Python string primitives -/

/-- Whitespace characters stripped by Python's `str.strip()` (ASCII subset;
the claims only exercise ASCII keys and lines). -/
def pyIsSpace (c : Char) : Bool :=
  c = ' ' ∨ c = '\t' ∨ c = '\n' ∨ c = '\r' ∨ c = '\x0b' ∨ c = '\x0c'

/-- Characters at which Python's `str.splitlines()` breaks a line. -/
def pyIsLineBreak (c : Char) : Bool :=
  c = '\n' ∨ c = '\r' ∨ c = '\x0b' ∨ c = '\x0c' ∨ c = '\x1c' ∨ c = '\x1d' ∨
  c = '\x1e' ∨ c = '\u0085' ∨ c = '\u2028' ∨ c = '\u2029'

/-- ASCII lower-casing of one character, as Python's `str.lower` acts on
ASCII (the redaction keys and level names in the repository are ASCII). -/
def pyCharLower (c : Char) : Char :=
  if 'A' ≤ c ∧ c ≤ 'Z' then Char.ofNat (c.toNat + 32) else c

/-- Python `str.lower` (ASCII subset). -/
def pyLower (s : String) : String :=
  ⟨s.data.map pyCharLower⟩

/-- Python `str.strip()`: drop leading and trailing whitespace.  Written as a
right strip (reverse, drop, reverse) followed by a left strip, so the head of
the result is visibly produced by `List.dropWhile`. -/
def pyStripChars (cs : List Char) : List Char :=
  (((cs.reverse).dropWhile pyIsSpace).reverse).dropWhile pyIsSpace

/-- Python `str.strip()` on strings. -/
def pyStrip (s : String) : String :=
  ⟨pyStripChars s.data⟩

/-- Membership of a string in a list of strings (Python `in` on a set of
strings), kept as an executable Boolean. -/
def memStr (s : String) : List String → Bool
  | [] => false
  | x :: xs => if s = x then true else memStr s xs

/-! ## JSON-like Python values

`JValue` models the JSON-serializable Python values that flow through the
pipeline (`None`, `bool`, `int`, `str`, `list`, `dict` with string keys).
Mapping entries keep their insertion order, as Python dicts do. -/

inductive JValue where
  | null
  | bool (b : Bool)
  | int (n : Int)
  | str (s : String)
  | arr (xs : List JValue)
  | obj (kvs : List (String × JValue))

mutual

/-- Decidable equality for `JValue` (structural, so `decide` can evaluate). -/
def decEqJValue : (a b : JValue) → Decidable (a = b)
  | .null, .null => isTrue rfl
  | .null, .bool _ => isFalse fun h => JValue.noConfusion h
  | .null, .int _ => isFalse fun h => JValue.noConfusion h
  | .null, .str _ => isFalse fun h => JValue.noConfusion h
  | .null, .arr _ => isFalse fun h => JValue.noConfusion h
  | .null, .obj _ => isFalse fun h => JValue.noConfusion h
  | .bool _, .null => isFalse fun h => JValue.noConfusion h
  | .bool a, .bool b =>
    if h : a = b then isTrue (h ▸ rfl) else isFalse fun hh => h (JValue.bool.inj hh)
  | .bool _, .int _ => isFalse fun h => JValue.noConfusion h
  | .bool _, .str _ => isFalse fun h => JValue.noConfusion h
  | .bool _, .arr _ => isFalse fun h => JValue.noConfusion h
  | .bool _, .obj _ => isFalse fun h => JValue.noConfusion h
  | .int _, .null => isFalse fun h => JValue.noConfusion h
  | .int _, .bool _ => isFalse fun h => JValue.noConfusion h
  | .int a, .int b =>
    if h : a = b then isTrue (h ▸ rfl) else isFalse fun hh => h (JValue.int.inj hh)
  | .int _, .str _ => isFalse fun h => JValue.noConfusion h
  | .int _, .arr _ => isFalse fun h => JValue.noConfusion h
  | .int _, .obj _ => isFalse fun h => JValue.noConfusion h
  | .str _, .null => isFalse fun h => JValue.noConfusion h
  | .str _, .bool _ => isFalse fun h => JValue.noConfusion h
  | .str _, .int _ => isFalse fun h => JValue.noConfusion h
  | .str a, .str b =>
    if h : a = b then isTrue (h ▸ rfl) else isFalse fun hh => h (JValue.str.inj hh)
  | .str _, .arr _ => isFalse fun h => JValue.noConfusion h
  | .str _, .obj _ => isFalse fun h => JValue.noConfusion h
  | .arr _, .null => isFalse fun h => JValue.noConfusion h
  | .arr _, .bool _ => isFalse fun h => JValue.noConfusion h
  | .arr _, .int _ => isFalse fun h => JValue.noConfusion h
  | .arr _, .str _ => isFalse fun h => JValue.noConfusion h
  | .arr a, .arr b =>
    match decEqJList a b with
    | isTrue h => isTrue (h ▸ rfl)
    | isFalse h => isFalse fun hh => h (JValue.arr.inj hh)
  | .arr _, .obj _ => isFalse fun h => JValue.noConfusion h
  | .obj _, .null => isFalse fun h => JValue.noConfusion h
  | .obj _, .bool _ => isFalse fun h => JValue.noConfusion h
  | .obj _, .int _ => isFalse fun h => JValue.noConfusion h
  | .obj _, .str _ => isFalse fun h => JValue.noConfusion h
  | .obj _, .arr _ => isFalse fun h => JValue.noConfusion h
  | .obj a, .obj b =>
    match decEqJObj a b with
    | isTrue h => isTrue (h ▸ rfl)
    | isFalse h => isFalse fun hh => h (JValue.obj.inj hh)
termination_by structural a => a

/-- Decidable equality for lists of values. -/
def decEqJList : (a b : List JValue) → Decidable (a = b)
  | [], [] => isTrue rfl
  | [], _ :: _ => isFalse fun h => List.noConfusion h
  | _ :: _, [] => isFalse fun h => List.noConfusion h
  | x :: xs, y :: ys =>
    match decEqJValue x y, decEqJList xs ys with
    | isTrue h1, isTrue h2 => isTrue (h1 ▸ h2 ▸ rfl)
    | isFalse h1, _ => isFalse fun h => h1 (List.cons.inj h).1
    | isTrue _, isFalse h2 => isFalse fun h => h2 (List.cons.inj h).2
termination_by structural a => a

/-- Decidable equality for mapping entry lists. -/
def decEqJObj : (a b : List (String × JValue)) → Decidable (a = b)
  | [], [] => isTrue rfl
  | [], _ :: _ => isFalse fun h => List.noConfusion h
  | _ :: _, [] => isFalse fun h => List.noConfusion h
  | (k1, v1) :: xs, (k2, v2) :: ys =>
    match String.decEq k1 k2, decEqJValue v1 v2, decEqJObj xs ys with
    | isTrue hk, isTrue hv, isTrue ht => isTrue (hk ▸ hv ▸ ht ▸ rfl)
    | isFalse hk, _, _ =>
      isFalse fun h => hk (congrArg Prod.fst (List.cons.inj h).1)
    | isTrue _, isFalse hv, _ =>
      isFalse fun h => hv (congrArg Prod.snd (List.cons.inj h).1)
    | isTrue _, isTrue _, isFalse ht => isFalse fun h => ht (List.cons.inj h).2
termination_by structural a => a

end

instance : DecidableEq JValue := decEqJValue

/-! ## Redaction engine (guck/redact.py)

A compiled regular expression is external to the repository (Python's `re`),
so a compiled pattern is modeled by its observable behaviour: the function
`String → String` that `pattern.sub(_REDACTED_VALUE, ·)` denotes.  The
configuration therefore carries the list of compiled patterns directly (in the
source, `_compile_patterns` builds this list once per `redact_event` call,
skipping patterns that fail to compile).  `literalSub` below gives the exact
`re` behaviour for the case-insensitive literal patterns used by concrete
witnesses and counterexamples. -/

/-- The sentinel `_REDACTED_VALUE` from redact.py. -/
def _REDACTED_VALUE : String := "[REDACTED]"

/-- Source `_normalize_key_set`: keys are stripped and lower-cased, and keys
that are empty after stripping are dropped.  The Python set is modeled as the
list of normalized keys (membership is all that is ever asked of it). -/
def _normalize_key_set (keys : List String) : List String :=
  (keys.filter fun k => pyStrip k ≠ "").map fun k => pyLower (pyStrip k)

/-- Source `_redact_string`: apply every compiled pattern in configured order,
each operating on the output of the previous one. -/
def _redact_string (value : String) (patterns : List (String → String)) : String :=
  patterns.foldl (fun acc p => p acc) value

mutual

/-- Source `_redact_value`: `None` and scalars pass through (strings after
pattern substitution), lists map recursively, and mapping entries whose
lower-cased key is in the key set have their whole value replaced by the
sentinel while other entries are redacted recursively. -/
def _redact_value (ks : List String) (ps : List (String → String)) : JValue → JValue
  | .null => .null
  | .str s => .str (_redact_string s ps)
  | .int n => .int n
  | .bool b => .bool b
  | .arr xs => .arr (redactList ks ps xs)
  | .obj kvs => .obj (redactPairs ks ps kvs)
termination_by structural v => v

/-- The list comprehension inside `_redact_value` for sequences. -/
def redactList (ks : List String) (ps : List (String → String)) : List JValue → List JValue
  | [] => []
  | x :: xs => _redact_value ks ps x :: redactList ks ps xs
termination_by structural v => v

/-- The entry loop inside `_redact_value` for mappings. -/
def redactPairs (ks : List String) (ps : List (String → String)) :
    List (String × JValue) → List (String × JValue)
  | [] => []
  | (k, v) :: kvs =>
    (if memStr (pyLower k) ks then (k, JValue.str _REDACTED_VALUE)
     else (k, _redact_value ks ps v)) :: redactPairs ks ps kvs
termination_by structural v => v

end

/-- Exact model of `re.compile(pat, re.IGNORECASE).sub(_REDACTED_VALUE, s)`
for a literal (meta-character-free) pattern: scan left to right, replace each
non-overlapping case-insensitive occurrence of `pat` with the sentinel.  An
empty pattern is treated as matching nothing (the repository never configures
one). -/
def matchesHereIC : List Char → List Char → Bool
  | [], _ => true
  | _ :: _, [] => false
  | p :: ps, c :: cs => if pyCharLower c = pyCharLower p then matchesHereIC ps cs else false

/-- Scanning core of `literalSub`; `fuel` bounds the scan (one unit per
consumed character). -/
def subLitAux (pat : List Char) : Nat → List Char → List Char
  | 0, cs => cs
  | _ + 1, [] => []
  | fuel + 1, c :: cs =>
    if matchesHereIC pat (c :: cs) then
      _REDACTED_VALUE.data ++ subLitAux pat fuel (List.drop pat.length (c :: cs))
    else c :: subLitAux pat fuel cs

/-- Case-insensitive literal-pattern substitution with the sentinel (the
behaviour `_compile_pattern` gives a literal pattern string). -/
def literalSub (pat : String) (s : String) : String :=
  if pat.data = [] then s else ⟨subLitAux pat.data (s.data.length + 1) s.data⟩

/-! ## Events and configuration -/

/-- The redaction section of the configuration (schema `GuckRedactionConfig`;
patterns are carried in compiled form, see above). -/
structure RedactionConfig where
  enabled : Bool
  keys : List String
  patterns : List (String → String)

/-- The configuration fields the emission pipeline reads (`enabled`,
`default_service`, `redaction`).  The remaining `GuckConfig` fields
(`version`, `sdk`, `mcp`, `store_dir`) are consumed elsewhere and never read
by the functions under verification. -/
structure Config where
  enabled : Bool
  default_service : String
  redaction : RedactionConfig

/-- A normalized event, with the fields `_to_event` writes.  Required fields
hold the (arbitrary) value the input supplied or the default; optional fields
are present (`some`) exactly when `_to_event` put them in the dict. -/
structure Event where
  id : JValue
  ts : JValue
  level : String
  type : JValue
  service : JValue
  run_id : JValue
  source : JValue
  session_id : Option JValue
  message : Option JValue
  data : Option JValue
  tags : Option JValue
  trace_id : Option JValue
  span_id : Option JValue
deriving DecidableEq

/-- Source `redact_event`: no-op when redaction is disabled; otherwise copy
the event, substitute patterns in a string `message` (a non-string `message`
is left as copied), and redact `data` and `tags` when present and non-`None`. -/
def redact_event (config : Config) (event : Event) : Event :=
  if !config.redaction.enabled then event
  else
    let key_set := _normalize_key_set config.redaction.keys
    let patterns := config.redaction.patterns
    { event with
      message :=
        match event.message with
        | some (.str s) => some (.str (_redact_string s patterns))
        | other => other
      data :=
        match event.data with
        | some v => if v = JValue.null then some v else some (_redact_value key_set patterns v)
        | none => none
      tags :=
        match event.tags with
        | some v => if v = JValue.null then some v else some (_redact_value key_set patterns v)
        | none => none }


/-! ## Event normalizer (guck/emit.py, lines 28-69; identical in hunch-py) -/

/-- The six recognized level names, in the order of the literal set in
`_normalize_level`. -/
def levelNames : List String := ["trace", "debug", "info", "warn", "error", "fatal"]

/-- Source `_normalize_level`.  Its annotated domain is `str | None`; `None`
and the empty string are falsy, anything else is lower-cased and kept only if
it is one of the six level names.  The function is total (never raises) on
this domain. -/
def _normalize_level (level : Option String) : String :=
  match level with
  | none => "info"
  | some s =>
    if s = "" then "info"
    else
      let lower := pyLower s
      if memStr lower levelNames then lower else "info"

/-- The raw input dict passed to `emit`/`_to_event`.  A field is `none` when
the key is absent, `some v` when present with value `v` (`some .null` models a
key present with value `None`).  `level` is kept at its annotated type
`str | None`, collapsing absent and `None` as `input_event.get("level")`
does. -/
structure InputEvent where
  id : Option JValue := none
  ts : Option JValue := none
  level : Option String := none
  type : Option JValue := none
  service : Option JValue := none
  run_id : Option JValue := none
  session_id : Option JValue := none
  message : Option JValue := none
  data : Option JValue := none
  tags : Option JValue := none
  trace_id : Option JValue := none
  span_id : Option JValue := none
  source : Option JValue := none

/-- Source `_coalesce`: the input value when present and non-`None`, else the
default. -/
def _coalesce (field : Option JValue) (default : JValue) : JValue :=
  match field with
  | some v => if v = JValue.null then default else v
  | none => default

/-- The `_coalesce` call for `session_id`, whose default is itself optional
(`_DEFAULT_SESSION_ID` may be unset). -/
def coalesceOpt (field : Option JValue) (default : Option JValue) : Option JValue :=
  match field with
  | some v => if v = JValue.null then default else some v
  | none => default

/-- The guard `if key in input_event and input_event[key] is not None` used
for the optional passthrough fields. -/
def presentNonNull (field : Option JValue) : Option JValue :=
  match field with
  | some v => if v = JValue.null then none else some v
  | none => none

/-- The per-process generated values `_to_event` draws on: a fresh uuid for
`id`, `_now_iso()` for `ts`, `_DEFAULT_RUN_ID`, and the optional
`_DEFAULT_SESSION_ID` (environment seed). -/
structure GenParams where
  genId : String
  nowIso : String
  defaultRunId : String
  defaultSessionId : Option String

/-- Source `_to_event` (guck/emit.py lines 43-69): required fields are
coalesced against generated or configured defaults, `level` is normalized,
`session_id` is included only when input or the process default supplies a
non-`None` value, and the remaining optional fields are copied only when
present and non-`None`. -/
def _to_event (input_event : InputEvent) (gp : GenParams) (defaultService : String) : Event :=
  { id := _coalesce input_event.id (.str gp.genId)
    ts := _coalesce input_event.ts (.str gp.nowIso)
    level := _normalize_level input_event.level
    type := _coalesce input_event.type (.str "log")
    service := _coalesce input_event.service (.str defaultService)
    run_id := _coalesce input_event.run_id (.str gp.defaultRunId)
    source := _coalesce input_event.source (.obj [("kind", .str "sdk")])
    session_id := coalesceOpt input_event.session_id (gp.defaultSessionId.map JValue.str)
    message := presentNonNull input_event.message
    data := presentNonNull input_event.data
    tags := presentNonNull input_event.tags
    trace_id := presentNonNull input_event.trace_id
    span_id := presentNonNull input_event.span_id }

/-! ## Stream capture (guck/auto.py, `_CapturedStream.write` and `_flush_line`) -/

/-- Python `str.splitlines()` over the character list: lines are closed at
every line-break character, with `"\r\n"` counting as a single break; a
trailing segment without a terminator still forms a line; the empty string
has no lines. -/
def splitlinesChars : List Char → List Char → List String
  | acc, [] => if acc = [] then [] else [⟨acc.reverse⟩]
  | acc, '\r' :: '\n' :: rest => ⟨acc.reverse⟩ :: splitlinesChars [] rest
  | acc, c :: rest =>
    if pyIsLineBreak c then ⟨acc.reverse⟩ :: splitlinesChars [] rest
    else splitlinesChars (c :: acc) rest

/-- Python `str.splitlines()`. -/
def pySplitlines (s : String) : List String :=
  splitlinesChars [] s.data

/-- Whether a string ends with `"\n"` or `"\r"` — the tuple `endswith` check
in `_CapturedStream.write`. -/
def endsWithNLCR (s : String) : Bool :=
  match s.data.reverse with
  | [] => false
  | c :: _ => c = '\n' ∨ c = '\r'

/-- Source `_flush_line` (via `emit`): whitespace-only lines are dropped, any
other completed line is emitted, in order.  Only the emitted message is
tracked here; `_flush_line` wraps it in an event with the stream's kind and
level, which the emission facade below handles. -/
def flushLine (emitted : List String) (line : String) : List String :=
  if pyStrip line = "" then emitted else emitted ++ [line]

/-- The observable state of one captured stream: the pending partial-line
buffer (`_buffer_ref["value"]`), the messages emitted so far, and the data
forwarded to the wrapped original stream. -/
structure CapState where
  buffer : String
  emitted : List String
  forwarded : List String
deriving DecidableEq

/-- Source `_CapturedStream.write` for text data: forward the write to the
original stream, append to the pending buffer, split the buffer into lines,
keep a trailing unterminated segment as the new buffer (popping it off the
line list), and flush every completed line in order. -/
def capturedWrite (st : CapState) (data : String) : CapState :=
  let buf := st.buffer ++ data
  let lines := pySplitlines buf
  let pending := if endsWithNLCR buf then "" else ((lines.getLast?).getD "")
  let complete := if endsWithNLCR buf then lines else lines.dropLast
  { buffer := pending
    emitted := complete.foldl flushLine st.emitted
    forwarded := st.forwarded ++ [data] }


/-! ## Durable store (guck/store.py; grpr-py's append_event is the same minus
the best-effort chmods) -/

/-- Decimal digit value of a character, if any. -/
def parseDigit (c : Char) : Option Nat :=
  if '0' ≤ c ∧ c ≤ '9' then some (c.toNat - 48) else none

/-- Parse exactly two decimal digits. -/
def parse2 : List Char → Option (Nat × List Char)
  | a :: b :: rest =>
    match parseDigit a, parseDigit b with
    | some x, some y => some (10 * x + y, rest)
    | _, _ => none
  | _ => none

/-- Parse exactly four decimal digits. -/
def parse4 : List Char → Option (Nat × List Char)
  | a :: b :: c :: d :: rest =>
    match parseDigit a, parseDigit b, parseDigit c, parseDigit d with
    | some w, some x, some y, some z => some (1000 * w + 100 * x + 10 * y + z, rest)
    | _, _, _, _ => none
  | _ => none

/-- Gregorian leap-year test (years here are always ≥ 1). -/
def isLeapYear (y : Int) : Bool :=
  (y % 4 = 0 ∧ y % 100 ≠ 0) ∨ y % 400 = 0

/-- Days in a month of the proleptic Gregorian calendar. -/
def daysInMonth (y : Int) (m : Nat) : Nat :=
  if m = 2 then (if isLeapYear y then 29 else 28)
  else if m = 4 ∨ m = 6 ∨ m = 9 ∨ m = 11 then 30
  else 31

/-- Days since the Unix epoch of a civil date (Howard Hinnant's
`days_from_civil`, the standard algorithm `datetime.date.toordinal` agrees
with up to the epoch offset). -/
def daysFromCivil (y : Int) (m : Int) (d : Int) : Int :=
  let y := if m ≤ 2 then y - 1 else y
  let era := (if 0 ≤ y then y else y - 399) / 400
  let yoe := y - era * 400
  let mp := if 2 < m then m - 3 else m + 9
  let doy := (153 * mp + 2) / 5 + d - 1
  let doe := yoe * 365 + yoe / 4 - yoe / 100 + doy
  era * 146097 + doe - 719468

/-- Civil date of a days-since-epoch count (Hinnant's `civil_from_days`). -/
def civilFromDays (z : Int) : Int × Int × Int :=
  let z := z + 719468
  let era := (if 0 ≤ z then z else z - 146096) / 146097
  let doe := z - era * 146097
  let yoe := (doe - doe / 1460 + doe / 36524 - doe / 146096) / 365
  let y := yoe + era * 400
  let doy := doe - (365 * yoe + yoe / 4 - yoe / 100)
  let mp := (5 * doy + 2) / 153
  let d := doy - (153 * mp + 2) / 5 + 1
  let m := if mp < 10 then mp + 3 else mp - 9
  (if m ≤ 2 then y + 1 else y, m, d)

/-- Parse `HH:MM[:SS[.f...]][±HH:MM[:SS]]` after the date separator and
return `(hour, minute, second, utc offset in seconds)`; `none` when the tail
is not a valid `datetime.fromisoformat` time (the repository's timestamps use
second or millisecond precision with a numeric offset; the `Z` suffix is
rewritten to `+00:00` by `_parse_timestamp` before this runs).  A missing
offset means a naive datetime, which `_parse_timestamp` treats as UTC, so it
is returned as offset 0. -/
def parseFracDigits : List Char → Nat → Option (List Char)
  | c :: rest, seen =>
    match parseDigit c with
    | some _ => if seen ≥ 6 then none else parseFracDigits rest (seen + 1)
    | none => if seen = 0 then none else some (c :: rest)
  | [], seen => if seen = 0 then none else some []

/-- Parse the optional numeric UTC offset (entire rest of the string). -/
def parseOffset : List Char → Option Int
  | [] => some 0
  | sign :: rest =>
    if sign = '+' ∨ sign = '-' then
      match parse2 rest with
      | some (oh, ':' :: r2) =>
        match parse2 r2 with
        | some (om, r3) =>
          let base : Option Nat :=
            match r3 with
            | [] => some 0
            | ':' :: r4 =>
              match parse2 r4 with
              | some (os, []) => some os
              | _ => none
            | _ => none
          match base with
          | some os =>
            if oh ≤ 23 ∧ om ≤ 59 ∧ os ≤ 59 then
              some ((if sign = '-' then -1 else 1) * (oh * 3600 + om * 60 + os))
            else none
          | none => none
        | none => none
      | _ => none
    else none

/-- Parse the time-of-day tail (after the single separator character). -/
def parseTimeTail : List Char → Option (Nat × Nat × Nat × Int)
  | cs =>
    match parse2 cs with
    | some (h, ':' :: r1) =>
      match parse2 r1 with
      | some (mi, r2) =>
        let secPart : Option (Nat × List Char) :=
          match r2 with
          | ':' :: r3 =>
            match parse2 r3 with
            | some (s, '.' :: r4) =>
              match parseFracDigits r4 0 with
              | some r5 => some (s, r5)
              | none => none
            | some (s, r4) => some (s, r4)
            | none => none
          | _ => some (0, r2)
        match secPart with
        | some (s, rest) =>
          match parseOffset rest with
          | some off =>
            if h ≤ 23 ∧ mi ≤ 59 ∧ s ≤ 59 then some (h, mi, s, off) else none
          | none => none
        | none => none
      | none => none
    | _ => none

/-- The fragment of `datetime.fromisoformat` the store can meet after the `Z`
rewrite: `YYYY-MM-DD`, optionally a single separator character and
`HH:MM[:SS[.f{1,6}]]`, optionally `±HH:MM[:SS]`.  The result is the UTC epoch
second count (naive datetimes count as UTC, per `_parse_timestamp`). -/
def parseIsoEpoch (s : String) : Option Int :=
  match parse4 s.data with
  | some (y, '-' :: r1) =>
    match parse2 r1 with
    | some (mo, '-' :: r2) =>
      match parse2 r2 with
      | some (d, r3) =>
        if 1 ≤ y ∧ 1 ≤ mo ∧ mo ≤ 12 ∧ 1 ≤ d ∧ d ≤ daysInMonth y mo then
          match r3 with
          | [] => some (daysFromCivil y mo d * 86400)
          | _sep :: r4 =>
            match parseTimeTail r4 with
            | some (h, mi, sec, off) =>
              some (daysFromCivil y mo d * 86400 + h * 3600 + mi * 60 + sec - off)
            | none => none
        else none
      | _ => none
    | _ => none
  | _ => none

/-- The `Z`-suffix rewrite and strip applied by `_parse_timestamp` before
calling `fromisoformat`. -/
def tsCandidate (s : String) : String :=
  let candidate := pyStrip s
  match candidate.data.reverse with
  | 'Z' :: _ => ⟨candidate.data.dropLast⟩ ++ "+00:00"
  | _ => candidate

/-- Source `_parse_timestamp`: a string is stripped, a trailing `Z` becomes
`+00:00`, and the result is parsed as an ISO timestamp (naive values are
assumed UTC); any non-string or unparseable value falls back to the current
time `now` (modeled as an epoch-second parameter). -/
def _parse_timestamp (value : JValue) (now : Int) : Int :=
  match value with
  | .str s =>
    match parseIsoEpoch (tsCandidate s) with
    | some t => t
    | none => now
  | _ => now

/-- Decimal digits of a natural number (`fuel` bounds the recursion and is
always sufficient at `n + 1`). -/
def natDigits : Nat → Nat → List Char
  | 0, _ => []
  | fuel + 1, n =>
    if n < 10 then [Char.ofNat (48 + n)]
    else natDigits fuel (n / 10) ++ [Char.ofNat (48 + n % 10)]

/-- Decimal rendering of a natural number. -/
def natToStr (n : Nat) : String :=
  ⟨natDigits (n + 1) n⟩

/-- Decimal rendering of an integer, as Python `str`/`repr` prints one. -/
def intToStr : Int → String
  | .ofNat n => natToStr n
  | .negSucc n => "-" ++ natToStr (n + 1)

/-- Zero-padded two-digit rendering (for `%m`/`%d` of `strftime`). -/
def pad2 (n : Int) : String :=
  if n < 10 then "0" ++ intToStr n else intToStr n

/-- Zero-padded four-digit rendering (for `%Y`; CPython pads the year to four
digits, and every event year in scope has exactly four). -/
def pad4 (n : Int) : String :=
  if n < 10 then "000" ++ intToStr n
  else if n < 100 then "00" ++ intToStr n
  else if n < 1000 then "0" ++ intToStr n
  else intToStr n

/-- Source `_format_date_segment`: `strftime("%Y-%m-%d")` of the UTC instant,
here computed from the epoch-second count. -/
def _format_date_segment (t : Int) : String :=
  let days := Int.fdiv t 86400
  let c := civilFromDays days
  pad4 c.1 ++ "-" ++ pad2 c.2.1 ++ "-" ++ pad2 c.2.2


/-- Lowercase hex digit. -/
def hexDigit (n : Nat) : Char :=
  if n < 10 then Char.ofNat (48 + n) else Char.ofNat (87 + n)

/-- Four lowercase hex digits, for control-character escapes. -/
def hex4 (n : Nat) : String :=
  ⟨[hexDigit (n / 4096 % 16), hexDigit (n / 256 % 16), hexDigit (n / 16 % 16),
    hexDigit (n % 16)]⟩

/-- One character of a JSON string as `json.dumps(..., ensure_ascii=False)`
renders it: quote and backslash escaped, the named control escapes, `\uXXXX`
for other control characters, everything else verbatim. -/
def jsonEscapeChar (c : Char) : String :=
  if c = '"' then "\\\""
  else if c = '\\' then "\\\\"
  else if c = '\n' then "\\n"
  else if c = '\t' then "\\t"
  else if c = '\r' then "\\r"
  else if c = '\x08' then "\\b"
  else if c = '\x0c' then "\\f"
  else if c.toNat < 32 then "\\u" ++ hex4 c.toNat
  else ⟨[c]⟩

/-- A JSON string literal. -/
def jsonQuote (s : String) : String :=
  "\"" ++ String.join (s.data.map jsonEscapeChar) ++ "\""

mutual

/-- The serialization `json.dumps(v, ensure_ascii=False)` with its default
separators (`", "` between items, `": "` after keys); mapping entries keep
insertion order, as `json.dumps` preserves dict order. -/
def jsonDumps : JValue → String
  | .null => "null"
  | .bool true => "true"
  | .bool false => "false"
  | .int n => intToStr n
  | .str s => jsonQuote s
  | .arr xs => "[" ++ jsonDumpsList xs ++ "]"
  | .obj kvs => "\x7b" ++ jsonDumpsPairs kvs ++ "\x7d"
termination_by structural v => v

/-- Comma-separated array items. -/
def jsonDumpsList : List JValue → String
  | [] => ""
  | [x] => jsonDumps x
  | x :: y :: rest => jsonDumps x ++ ", " ++ jsonDumpsList (y :: rest)
termination_by structural v => v

/-- Comma-separated object entries. -/
def jsonDumpsPairs : List (String × JValue) → String
  | [] => ""
  | [(k, v)] => jsonQuote k ++ ": " ++ jsonDumps v
  | (k, v) :: p :: rest => jsonQuote k ++ ": " ++ jsonDumps v ++ ", " ++ jsonDumpsPairs (p :: rest)
termination_by structural v => v

end

/-- Python `str()` of a value, as the f-string `f"..."` in `append_event`
renders `event["run_id"]` (and `Path` division renders `event["service"]`).
Strings render as themselves, which is the only case the pipeline produces
and the only case any theorem relies on; container `repr` quoting is
approximated with unescaped single quotes. -/
def pyStr : JValue → String
  | .str s => s
  | .int n => intToStr n
  | .bool true => "True"
  | .bool false => "False"
  | .null => "None"
  | v => jsonDumps v

/-- Whether a POSIX path string is absolute. -/
def isAbsPath (p : String) : Bool :=
  match p.data with
  | c :: _ => c = '/'
  | [] => false

/-- One `pathlib` `/` join for normalized POSIX path strings: an absolute
right operand replaces the left (pathlib semantics), an empty left operand
(`Path("")`, i.e. `.`) disappears, otherwise the parts are joined with a
slash. -/
def pathJoin (a b : String) : String :=
  if isAbsPath b then b
  else if a = "" then b
  else a ++ "/" ++ b

/-- Filesystem write effects the store can perform. -/
inductive FsOp where
  | mkdir (path : String)
  | chmod (path : String) (mode : Nat)
  | append (path : String) (content : String)
deriving DecidableEq

/-- The dict insertion order of `_to_event`, which `json.dumps` preserves:
the seven required fields, then each optional field that is present. -/
def eventToPairs (e : Event) : List (String × JValue) :=
  [("id", e.id), ("ts", e.ts), ("level", .str e.level), ("type", e.type),
   ("service", e.service), ("run_id", e.run_id), ("source", e.source)] ++
  (match e.session_id with | some v => [("session_id", v)] | none => []) ++
  (match e.message with | some v => [("message", v)] | none => []) ++
  (match e.data with | some v => [("data", v)] | none => []) ++
  (match e.tags with | some v => [("tags", v)] | none => []) ++
  (match e.trace_id with | some v => [("trace_id", v)] | none => []) ++
  (match e.span_id with | some v => [("span_id", v)] | none => [])

/-- The one JSON line `append_event` writes for an event. -/
def jsonDumpsEvent (e : Event) : String :=
  jsonDumps (.obj (eventToPairs e))

/-- Source `append_event` (guck/store.py lines 39-53): parse the event's
`ts` (falling back to the current time `now`), build
`storeDir/service/date/run_id.jsonl`, create the directories, best-effort
chmod the three directory levels to 0o777, append the serialized event plus a
newline as a single write, best-effort chmod the file to 0o666, and return
`str(file_path)`.  The returned value is the joined path exactly as the
`Path` arithmetic produces it — nothing resolves it to an absolute path.
The result is the returned path and the ordered list of attempted filesystem
effects.  grpr-py's `append_event` is identical minus the four chmods. -/
def append_event (store_dir : String) (event : Event) (now : Int) : String × List FsOp :=
  let ts := _parse_timestamp event.ts now
  let date_segment := _format_date_segment ts
  let service_dir := pathJoin store_dir (pyStr event.service)
  let file_dir := pathJoin service_dir date_segment
  let file_path := pathJoin file_dir (pyStr event.run_id ++ ".jsonl")
  (file_path,
   [FsOp.mkdir file_dir, FsOp.chmod store_dir 0o777, FsOp.chmod service_dir 0o777,
    FsOp.chmod file_dir 0o777, FsOp.append file_path (jsonDumpsEvent event ++ "\n"),
    FsOp.chmod file_path 0o666])

/-! ## Emission facade (guck/emit.py, lines 72-106) -/

/-- A raised `OSError`, identified by its (possibly absent) `errno`. -/
structure OSErr where
  errno : Option Int
deriving DecidableEq

/-- The permission-class test `exc.errno in (EACCES, EPERM, EROFS)`
(Linux values 13, 1, 30). -/
def isPermissionErr (e : OSErr) : Bool :=
  e.errno = some 13 ∨ e.errno = some 1 ∨ e.errno = some 30

/-- The process-wide mutable globals of emit.py: `_write_disabled` and
`_warned`. -/
structure EmitState where
  write_disabled : Bool
  warned : Bool
deriving DecidableEq

/-- What the filesystem did when `append_event` ran: either every effect
succeeded, or an `OSError` was raised after some prefix `opsDone` of the
effects had been attempted. -/
inductive AppendOutcome where
  | ok
  | err (e : OSErr) (opsDone : List FsOp)

/-- The one-time diagnostic emit writes to stderr on a permission failure. -/
def warnMsg : String :=
  "[guck] write disabled (permission error); set GUCK_STRICT_WRITE_ERRORS=1 to fail hard\n"

/-- Everything observable about one `emit` call: the globals afterwards, the
filesystem effects performed, the stderr diagnostics written, and the
exception propagated to the caller (if any). -/
structure EmitResult where
  state : EmitState
  ops : List FsOp
  stderrOut : List String
  raised : Option OSErr
deriving DecidableEq

/-- Source `emit` (guck-py variant): return immediately when the
write-disabled latch is set; return when the cached config has
`enabled = false`; otherwise normalize, redact and append.  On an `OSError`
from the append: re-raise when the strict env override is set; on a
permission-class errno, latch `_write_disabled`, write the diagnostic once,
and swallow; re-raise anything else.  The resolved config, store dir, strict
flag (`GUCK_STRICT_WRITE_ERRORS == "1"`), generated defaults, current time
and filesystem behaviour are parameters, since they come from the
environment.  The hunch-py variant is this function without the latch check
and without the try/except (every `OSError` propagates there). -/
def emit (config : Config) (store_dir : String) (strict : Bool) (gp : GenParams)
    (now : Int) (input_event : InputEvent) (outcome : AppendOutcome)
    (st : EmitState) : EmitResult :=
  if st.write_disabled then ⟨st, [], [], none⟩
  else if !config.enabled then ⟨st, [], [], none⟩
  else
    let event := _to_event input_event gp config.default_service
    let redacted := redact_event config event
    match outcome with
    | .ok => ⟨st, (append_event store_dir redacted now).2, [], none⟩
    | .err e opsDone =>
      if strict then ⟨st, opsDone, [], some e⟩
      else if isPermissionErr e then
        ⟨⟨true, true⟩, opsDone, if st.warned then [] else [warnMsg], none⟩
      else ⟨st, opsDone, [], some e⟩


/-- Value containment: `SubJ v w` holds when `v` occurs in `w`, at any
nesting depth through sequences and mapping values. -/
inductive SubJ : JValue → JValue → Prop where
  | refl (v : JValue) : SubJ v v
  | inArr {v w : JValue} {xs : List JValue} : w ∈ xs → SubJ v w → SubJ v (.arr xs)
  | inObj {v w : JValue} {k : String} {kvs : List (String × JValue)} :
      (k, w) ∈ kvs → SubJ v w → SubJ v (.obj kvs)

/-- Whether a filesystem effect is a file append. -/
def isAppendOp : FsOp → Bool
  | .append _ _ => true
  | _ => false

/-! ## Supporting lemmas -/

/-- Boolean string membership agrees with list membership. -/
theorem memStr_iff (s : String) : ∀ (xs : List String), memStr s xs = true ↔ s ∈ xs
  | [] => by simp [memStr]
  | x :: xs => by
    by_cases h : s = x
    · subst h; simp [memStr]
    · simp [memStr, h, memStr_iff s xs]

/-! ## C1 -/

/-- C1: for every resolved configuration with `enabled = false`, `emit`
returns without performing any filesystem effect (no directory creation, no
chmod, no append), writes nothing to stderr, raises nothing, and leaves the
process globals unchanged — regardless of the input event, the store
directory, strict mode, or the state of the latch. -/
theorem emit_disabled_is_noop (config : Config) (store_dir : String) (strict : Bool)
    (gp : GenParams) (now : Int) (input_event : InputEvent) (outcome : AppendOutcome)
    (st : EmitState) (h : config.enabled = false) :
    emit config store_dir strict gp now input_event outcome st =
      ⟨st, [], [], none⟩ := by
  unfold emit
  by_cases hw : st.write_disabled <;> simp [hw, h]

/-- Witness for C1 at a concrete disabled configuration and event. -/
theorem emit_disabled_is_noop_witness :
    emit ⟨false, "guck", ⟨true, ["token"], []⟩⟩ "/home/u/.guck/logs" false
      ⟨"id0", "2024-01-02T03:04:05.123Z", "run0", none⟩ 0
      ⟨none, none, some "info", none, none, none, none, some (.str "hello"), none,
       none, none, none, none⟩ .ok ⟨false, false⟩ =
      ⟨⟨false, false⟩, [], [], none⟩ :=
  emit_disabled_is_noop _ _ _ _ _ _ _ _ rfl

/-! ## C2 -/

/-- C2: when the append raises a permission-class `OSError` and strict mode
is off, `emit` swallows the error, latches the write-disabled flag, and
writes the diagnostic exactly when it has not been written before; with
strict mode set the error propagates with the globals untouched; a
non-permission `OSError` propagates as well; and once the latch is set every
later `emit` call is a complete no-op. -/
theorem emit_permission_failure_policy (config : Config) (store_dir : String)
    (gp : GenParams) (now : Int) (input_event : InputEvent) (e : OSErr)
    (opsDone : List FsOp) (st : EmitState) (henabled : config.enabled = true)
    (hlatch : st.write_disabled = false) :
    (isPermissionErr e = true →
      emit config store_dir false gp now input_event (.err e opsDone) st =
        ⟨⟨true, true⟩, opsDone, if st.warned then [] else [warnMsg], none⟩) ∧
    (emit config store_dir true gp now input_event (.err e opsDone) st =
        ⟨st, opsDone, [], some e⟩) ∧
    (isPermissionErr e = false →
      emit config store_dir false gp now input_event (.err e opsDone) st =
        ⟨st, opsDone, [], some e⟩) ∧
    (∀ (config2 : Config) (store_dir2 : String) (strict2 : Bool) (gp2 : GenParams)
       (now2 : Int) (input2 : InputEvent) (outcome2 : AppendOutcome) (st2 : EmitState),
       st2.write_disabled = true →
       emit config2 store_dir2 strict2 gp2 now2 input2 outcome2 st2 = ⟨st2, [], [], none⟩) := by
  refine ⟨?_, ?_, ?_, ?_⟩
  · intro hperm
    unfold emit
    simp [hlatch, henabled, hperm]
  · unfold emit
    simp [hlatch, henabled]
  · intro hperm
    unfold emit
    simp [hlatch, henabled, hperm]
  · intro config2 store_dir2 strict2 gp2 now2 input2 outcome2 st2 h2
    unfold emit
    simp [h2]

/-- Witness for C2: a concrete `EACCES` failure with strict mode off, from a
fresh process state, latches the flag and writes the one diagnostic. -/
theorem emit_permission_failure_policy_witness :
    emit ⟨true, "guck", ⟨true, ["token"], []⟩⟩ "/home/u/.guck/logs" false
      ⟨"id0", "2024-01-02T03:04:05.123Z", "run0", none⟩ 0
      ⟨none, none, none, none, none, none, none, some (.str "hello"), none,
       none, none, none, none⟩ (.err ⟨some 13⟩ [FsOp.mkdir "/home/u/.guck/logs/guck/2024-01-02"])
      ⟨false, false⟩ =
      ⟨⟨true, true⟩, [FsOp.mkdir "/home/u/.guck/logs/guck/2024-01-02"], [warnMsg], none⟩ :=
  (emit_permission_failure_policy _ _ _ _ _ _ _ _ rfl rfl).1 rfl

/-! ## C6 -/

/-- C6: on a captured stream, writing `"a\nb"` and then `"c\n"` emits exactly
the two line events `"a"` and `"bc"` in order; the unterminated tail `"b"`
sits in the buffer between the writes and is empty afterwards; both writes
are forwarded to the original stream; and in general every write is forwarded
unchanged. -/
theorem captured_stream_line_splitting :
    (capturedWrite ⟨"", [], []⟩ "a\nb").buffer = "b" ∧
    (capturedWrite ⟨"", [], []⟩ "a\nb").emitted = ["a"] ∧
    capturedWrite (capturedWrite ⟨"", [], []⟩ "a\nb") "c\n" =
      ⟨"", ["a", "bc"], ["a\nb", "c\n"]⟩ ∧
    (∀ (st : CapState) (data : String),
      (capturedWrite st data).forwarded = st.forwarded ++ [data]) :=
  ⟨by decide, by decide, by decide, fun st data => rfl⟩

/-! ## C8 -/

/-- C8: `_normalize_level` lower-cases its input and keeps it exactly when
the lower-cased form is one of the six level names; a missing (`None`),
empty, or non-matching value normalizes to `"info"`; and the result is always
one of the six names.  The function is total on its `str | None` domain, so
no input makes it raise. -/
theorem normalize_level_spec :
    (_normalize_level none = "info") ∧
    (_normalize_level (some "") = "info") ∧
    (∀ s, memStr (pyLower s) levelNames = true → _normalize_level (some s) = pyLower s) ∧
    (∀ s, memStr (pyLower s) levelNames = false → _normalize_level (some s) = "info") ∧
    (∀ level, memStr (_normalize_level level) levelNames = true) := by
  refine ⟨rfl, rfl, ?_, ?_, ?_⟩
  · intro s h
    have hs : s ≠ "" := by
      intro he
      subst he
      exact absurd h (by decide)
    simp [_normalize_level, hs, h]
  · intro s h
    by_cases hs : s = ""
    · subst hs
      simp [_normalize_level]
    · simp [_normalize_level, hs, h]
  · intro level
    match level with
    | none => decide
    | some s =>
      by_cases hs : s = ""
      · subst hs
        decide
      · by_cases h : memStr (pyLower s) levelNames = true
        · simp [_normalize_level, hs, h]
        · simp only [Bool.not_eq_true] at h
          simp only [_normalize_level, hs, h, if_false, if_neg]
          simp [hs, h]
          decide

/-- Witness for C8: a mixed-case match is lower-cased and kept, an
unrecognized value falls back to `"info"`. -/
theorem normalize_level_spec_witness :
    _normalize_level (some "WARN") = "warn" ∧ _normalize_level (some "verbose") = "info" :=
  ⟨(normalize_level_spec.2.2.1 "WARN" (by decide)).trans (by decide),
   normalize_level_spec.2.2.2.1 "verbose" (by decide)⟩

/-! ## C9 -/

/-- C9: when an event's `message` is present but not a string, `redact_event`
returns it untouched, whatever the configuration — pattern substitution only
ever rewrites a string message (`isinstance(message, str)` guards the only
assignment to the copied `message` field). -/
theorem redact_event_message_non_string (config : Config) (event : Event) (m : JValue)
    (hm : event.message = some m) (hns : ∀ s, m ≠ JValue.str s) :
    (redact_event config event).message = some m := by
  unfold redact_event
  split
  · exact hm
  · cases m with
    | str s => exact absurd rfl (hns s)
    | null => simp [hm]
    | bool b => simp [hm]
    | int n => simp [hm]
    | arr xs => simp [hm]
    | obj kvs => simp [hm]

/-- Witness for C9: an integer `message` whose decimal rendering a configured
literal pattern would match is still passed through unchanged by an enabled
redaction configuration. -/
theorem redact_event_message_non_string_witness :
    (redact_event ⟨true, "guck", ⟨true, ["token"], [literalSub "5"]⟩⟩
      ⟨.str "id0", .str "t0", "info", .str "log", .str "s", .str "r",
       .obj [("kind", .str "sdk")], none, some (.int 5), none, none, none, none⟩).message =
      some (.int 5) :=
  redact_event_message_non_string _ _ _ rfl (fun _ h => JValue.noConfusion h)

/-! ## C10 -/

/-- The head of `dropWhile p` never satisfies `p`. -/
theorem head_dropWhile_not (p : Char → Bool) :
    ∀ (l : List Char) (c : Char) (rest : List Char), l.dropWhile p = c :: rest → p c = false
  | [], c, rest, h => by simp [List.dropWhile] at h
  | x :: xs, c, rest, h => by
    by_cases hx : p x
    · rw [List.dropWhile_cons_of_pos hx] at h
      exact head_dropWhile_not p xs c rest h
    · rw [List.dropWhile_cons_of_neg hx] at h
      cases h
      exact Bool.of_not_eq_true hx

/-- The first character of a stripped string is not whitespace. -/
theorem pyStrip_head_not_space (s : String) (c : Char) (rest : List Char)
    (h : (pyStrip s).data = c :: rest) : pyIsSpace c = false :=
  head_dropWhile_not pyIsSpace _ c rest h

/-- ASCII lower-casing only maps a character to a space if it was one. -/
theorem pyCharLower_space (c : Char) (h : pyCharLower c = ' ') : c = ' ' := by
  unfold pyCharLower at h
  split at h
  · rename_i hc
    have h65 : 65 ≤ c.toNat := hc.1
    have h90 : c.toNat ≤ 90 := hc.2
    have hv : (Char.ofNat (c.toNat + 32)).toNat = c.toNat + 32 := by
      unfold Char.ofNat
      rw [dif_pos]
      · rfl
      · exact Or.inl (by omega)
    rw [h] at hv
    have : (32 : Nat) = c.toNat + 32 := hv
    omega
  · exact h

/-- No normalized redaction key begins with a space: every member of the key
set is the strip of some configured key, lower-cased. -/
theorem normalize_key_set_no_leading_space (keys : List String) (k : String)
    (hk : k ∈ _normalize_key_set keys) (c : Char) (rest : List Char)
    (hd : k.data = c :: rest) : c ≠ ' ' := by
  unfold _normalize_key_set at hk
  rw [List.mem_map] at hk
  obtain ⟨k0, _hk0, hk0e⟩ := hk
  intro hsp
  subst hsp
  have hdata : (pyLower (pyStrip k0)).data = ' ' :: rest := by rw [hk0e]; exact hd
  unfold pyLower at hdata
  match hstrip : (pyStrip k0).data with
  | [] => rw [hstrip] at hdata; simp at hdata
  | c0 :: rest0 =>
    rw [hstrip] at hdata
    simp only [List.map_cons, List.cons.injEq] at hdata
    have hsp0 : pyIsSpace c0 = false := pyStrip_head_not_space k0 c0 rest0 hstrip
    have : c0 = ' ' := pyCharLower_space c0 hdata.1
    subst this
    simp [pyIsSpace] at hsp0

/-- The key `" token "` (with surrounding whitespace) is in no normalized key
set. -/
theorem spaced_key_never_in_key_set (keys : List String) :
    memStr " token " (_normalize_key_set keys) = false := by
  by_cases h : memStr " token " (_normalize_key_set keys) = true
  · exfalso
    have hm := (memStr_iff _ _).mp h
    exact normalize_key_set_no_leading_space keys _ hm ' ' "token ".data rfl rfl
  · simpa using h

/-- C10: configured redaction keys are stripped and lower-cased, and keys
that strip to the empty string are dropped, while event mapping keys are only
lower-cased, never stripped.  Concretely: every surviving key-set member is
`pyLower (pyStrip k)` for a configured `k` with non-empty strip (and
conversely each such key survives); the configured key `" Token "` redacts an
event entry keyed `"token"` under any pattern list and any value; and an
event entry keyed `" token "` is never redacted by key, whatever the
configured keys — its value is recursively redacted instead. -/
theorem redaction_key_normalization (keys : List String)
    (ps : List (String → String)) (v : JValue) :
    (∀ k, k ∈ _normalize_key_set keys ↔
      ∃ k0, k0 ∈ keys ∧ pyStrip k0 ≠ "" ∧ k = pyLower (pyStrip k0)) ∧
    (_redact_value (_normalize_key_set [" Token "]) ps (.obj [("token", v)]) =
      .obj [("token", .str _REDACTED_VALUE)]) ∧
    (_redact_value (_normalize_key_set keys) ps (.obj [(" token ", v)]) =
      .obj [(" token ", _redact_value (_normalize_key_set keys) ps v)]) := by
  refine ⟨?_, ?_, ?_⟩
  · intro k
    unfold _normalize_key_set
    simp only [List.mem_map, List.mem_filter, decide_eq_true_eq]
    constructor
    · rintro ⟨k0, ⟨hk0, hne⟩, hke⟩
      exact ⟨k0, hk0, hne, hke.symm⟩
    · rintro ⟨k0, hk0, hne, hke⟩
      exact ⟨k0, ⟨hk0, hne⟩, hke.symm⟩
  · have : memStr (pyLower "token") (_normalize_key_set [" Token "]) = true := by decide
    simp [_redact_value, redactPairs, this]
  · have : memStr (pyLower " token ") (_normalize_key_set keys) = false := by
      have : pyLower " token " = " token " := by decide
      rw [this]
      exact spaced_key_never_in_key_set keys
    simp [_redact_value, redactPairs, this]

/-- Witness for C10: the membership characterization at the default key list
plus a whitespace-only configured key, evaluated concretely. -/
theorem redaction_key_normalization_witness :
    "token" ∈ _normalize_key_set ["  ", " Token "] ∧
    _redact_value (_normalize_key_set [" Token "]) [] (.obj [("token", .int 7)]) =
      .obj [("token", .str _REDACTED_VALUE)] :=
  ⟨((redaction_key_normalization ["  ", " Token "] [] .null).1 "token").mpr
      ⟨" Token ", by decide, by decide, by decide⟩,
   (redaction_key_normalization ["  ", " Token "] [] (.int 7)).2.1⟩

/-! ## C3 -/

/-- `redactList` is an order-preserving map of `_redact_value`. -/
theorem redactList_eq_map (ks : List String) (ps : List (String → String)) :
    ∀ (xs : List JValue), redactList ks ps xs = xs.map (_redact_value ks ps)
  | [] => rfl
  | x :: xs => by simp [redactList, redactList_eq_map ks ps xs]

/-- `redactPairs` is an order- and key-preserving map: matching keys get the
sentinel, other values are redacted recursively. -/
theorem redactPairs_eq_map (ks : List String) (ps : List (String → String)) :
    ∀ (kvs : List (String × JValue)), redactPairs ks ps kvs =
      kvs.map fun kv =>
        if memStr (pyLower kv.1) ks then (kv.1, JValue.str _REDACTED_VALUE)
        else (kv.1, _redact_value ks ps kv.2)
  | [] => rfl
  | (k, v) :: kvs => by simp [redactPairs, redactPairs_eq_map ks ps kvs]

/-- In the direct output of `redactPairs`, every entry whose lower-cased key
is in the key set carries the sentinel. -/
theorem mem_redactPairs_sentinel (ks : List String) (ps : List (String → String)) :
    ∀ (kvs : List (String × JValue)) (k : String) (w : JValue),
      (k, w) ∈ redactPairs ks ps kvs → memStr (pyLower k) ks = true →
      w = JValue.str _REDACTED_VALUE
  | [], k, w, h, _ => by simp [redactPairs] at h
  | (k0, v0) :: kvs, k, w, h, hks => by
    simp only [redactPairs, List.mem_cons] at h
    cases h with
    | inl h =>
      by_cases h0 : memStr (pyLower k0) ks = true
      · rw [if_pos h0] at h
        exact (Prod.mk.inj h).2
      · rw [if_neg h0] at h
        obtain ⟨hk, _⟩ := Prod.mk.inj h
        exact absurd (hk ▸ hks) h0
    | inr h => exact mem_redactPairs_sentinel ks ps kvs k w h hks

mutual

/-- Deep sentinel property, value form: inside the redaction of any value,
every mapping entry whose lower-cased key is in the key set carries the
sentinel. -/
theorem sentinel_deep_val (ks : List String) (ps : List (String → String)) :
    ∀ (v : JValue) (kvs : List (String × JValue)) (k : String) (w : JValue),
      SubJ (.obj kvs) (_redact_value ks ps v) → (k, w) ∈ kvs →
      memStr (pyLower k) ks = true → w = JValue.str _REDACTED_VALUE
  | .null => by
    intro kvs k w hsub hmem hks
    simp only [_redact_value] at hsub
    cases hsub
  | .bool b => by
    intro kvs k w hsub hmem hks
    simp only [_redact_value] at hsub
    cases hsub
  | .int n => by
    intro kvs k w hsub hmem hks
    simp only [_redact_value] at hsub
    cases hsub
  | .str s => by
    intro kvs k w hsub hmem hks
    simp only [_redact_value] at hsub
    cases hsub
  | .arr xs => by
    intro kvs k w hsub hmem hks
    simp only [_redact_value] at hsub
    cases hsub with
    | inArr hw hsub2 => exact sentinel_deep_list ks ps xs _ hw kvs k w hsub2 hmem hks
  | .obj kvs0 => by
    intro kvs k w hsub hmem hks
    simp only [_redact_value] at hsub
    cases hsub with
    | refl => exact mem_redactPairs_sentinel ks ps kvs0 k w hmem hks
    | inObj hw hsub2 => exact sentinel_deep_pairs ks ps kvs0 _ _ hw kvs k w hsub2 hmem hks
termination_by structural v => v

/-- Deep sentinel property, list form. -/
theorem sentinel_deep_list (ks : List String) (ps : List (String → String)) :
    ∀ (xs : List JValue) (u : JValue), u ∈ redactList ks ps xs →
      ∀ (kvs : List (String × JValue)) (k : String) (w : JValue),
        SubJ (.obj kvs) u → (k, w) ∈ kvs → memStr (pyLower k) ks = true →
        w = JValue.str _REDACTED_VALUE
  | [] => by
    intro u hu
    simp [redactList] at hu
  | x :: xs => by
    intro u hu kvs k w hsub hmem hks
    simp only [redactList, List.mem_cons] at hu
    cases hu with
    | inl h => exact sentinel_deep_val ks ps x kvs k w (h ▸ hsub) hmem hks
    | inr h => exact sentinel_deep_list ks ps xs u h kvs k w hsub hmem hks
termination_by structural xs => xs

/-- Deep sentinel property, mapping-entry form. -/
theorem sentinel_deep_pairs (ks : List String) (ps : List (String → String)) :
    ∀ (kvs0 : List (String × JValue)) (k0 : String) (u : JValue),
      (k0, u) ∈ redactPairs ks ps kvs0 →
      ∀ (kvs : List (String × JValue)) (k : String) (w : JValue),
        SubJ (.obj kvs) u → (k, w) ∈ kvs → memStr (pyLower k) ks = true →
        w = JValue.str _REDACTED_VALUE
  | [] => by
    intro k0 u hu
    simp [redactPairs] at hu
  | (k1, v1) :: kvs0 => by
    intro k0 u hu kvs k w hsub hmem hks
    simp only [redactPairs, List.mem_cons] at hu
    cases hu with
    | inl h =>
      by_cases h1 : memStr (pyLower k1) ks = true
      · rw [if_pos h1] at h
        have hu2 : u = JValue.str _REDACTED_VALUE := (Prod.mk.inj h).2
        subst hu2
        cases hsub
      · rw [if_neg h1] at h
        have hu2 : u = _redact_value ks ps v1 := (Prod.mk.inj h).2
        exact sentinel_deep_val ks ps v1 kvs k w (hu2 ▸ hsub) hmem hks
    | inr h => exact sentinel_deep_pairs ks ps kvs0 k0 u h kvs k w hsub hmem hks
termination_by structural kvs0 => kvs0

end

/-- C3: with redaction enabled, `data` and `tags` (when present and
non-`None`) are redacted by `_redact_value` under the normalized key set;
`_redact_value` maps mappings entry-by-entry in order, replacing the entire
value of any entry whose lower-cased key is in the key set with the sentinel
regardless of the value's form and redacting other entries recursively; it
maps sequences element-wise in order; and in the redacted output, every
mapping at every nesting depth has the sentinel at every matching key. -/
theorem redact_event_sentinel_all_depths (config : Config) (event : Event)
    (henabled : config.redaction.enabled = true) :
    (∀ d, event.data = some d → d ≠ JValue.null →
      (redact_event config event).data =
        some (_redact_value (_normalize_key_set config.redaction.keys)
          config.redaction.patterns d)) ∧
    (∀ t, event.tags = some t → t ≠ JValue.null →
      (redact_event config event).tags =
        some (_redact_value (_normalize_key_set config.redaction.keys)
          config.redaction.patterns t)) ∧
    (∀ ks ps kvs, _redact_value ks ps (.obj kvs) =
      .obj (kvs.map fun kv =>
        if memStr (pyLower kv.1) ks then (kv.1, JValue.str _REDACTED_VALUE)
        else (kv.1, _redact_value ks ps kv.2))) ∧
    (∀ ks ps xs, _redact_value ks ps (.arr xs) = .arr (xs.map (_redact_value ks ps))) ∧
    (∀ ks ps v kvs k w, SubJ (.obj kvs) (_redact_value ks ps v) → (k, w) ∈ kvs →
      memStr (pyLower k) ks = true → w = JValue.str _REDACTED_VALUE) := by
  refine ⟨?_, ?_, ?_, ?_, ?_⟩
  · intro d hd hdn
    simp [redact_event, henabled, hd, hdn]
  · intro t ht htn
    simp [redact_event, henabled, ht, htn]
  · intro ks ps kvs
    simp [_redact_value, redactPairs_eq_map]
  · intro ks ps xs
    simp [_redact_value, redactList_eq_map]
  · intro ks ps v kvs k w hsub hmem hks
    exact sentinel_deep_val ks ps v kvs k w hsub hmem hks

/-- Witness for C3: a data mapping whose sensitive key sits two levels deep
(and with a different letter case) is replaced by the sentinel, while the
rest of the structure is preserved. -/
theorem redact_event_sentinel_all_depths_witness :
    (redact_event ⟨true, "guck", ⟨true, ["token", "api_key"], []⟩⟩
      ⟨.str "id0", .str "t0", "info", .str "log", .str "s", .str "r",
       .obj [("kind", .str "sdk")], none, none,
       some (.obj [("user", .obj [("Token", .arr [.int 1])]), ("api_key", .int 2),
                   ("note", .str "ok")]),
       none, none, none⟩).data =
      some (.obj [("user", .obj [("Token", .str "[REDACTED]")]),
                  ("api_key", .str "[REDACTED]"), ("note", .str "ok")]) :=
  ((redact_event_sentinel_all_depths _ _ rfl).1 _ rfl (by decide)).trans (by decide)

/-! ## C4 -/

mutual

/-- Value-level idempotence of `_redact_value`, assuming the combined pattern
substitution is idempotent on strings. -/
theorem redact_value_idem (ks : List String) (ps : List (String → String))
    (hps : ∀ s, _redact_string (_redact_string s ps) ps = _redact_string s ps) :
    ∀ (v : JValue), _redact_value ks ps (_redact_value ks ps v) = _redact_value ks ps v
  | .null => rfl
  | .bool b => rfl
  | .int n => rfl
  | .str s => by simp [_redact_value, hps]
  | .arr xs => by
    simp only [_redact_value, JValue.arr.injEq]
    exact redact_list_idem ks ps hps xs
  | .obj kvs => by
    simp only [_redact_value, JValue.obj.injEq]
    exact redact_pairs_idem ks ps hps kvs
termination_by structural v => v

/-- List-level idempotence. -/
theorem redact_list_idem (ks : List String) (ps : List (String → String))
    (hps : ∀ s, _redact_string (_redact_string s ps) ps = _redact_string s ps) :
    ∀ (xs : List JValue), redactList ks ps (redactList ks ps xs) = redactList ks ps xs
  | [] => rfl
  | x :: xs => by
    simp only [redactList, List.cons.injEq]
    exact ⟨redact_value_idem ks ps hps x, redact_list_idem ks ps hps xs⟩
termination_by structural xs => xs

/-- Mapping-level idempotence: a matched key maps to the sentinel on the
first pass and is matched again on the second. -/
theorem redact_pairs_idem (ks : List String) (ps : List (String → String))
    (hps : ∀ s, _redact_string (_redact_string s ps) ps = _redact_string s ps) :
    ∀ (kvs : List (String × JValue)),
      redactPairs ks ps (redactPairs ks ps kvs) = redactPairs ks ps kvs
  | [] => rfl
  | (k, v) :: kvs => by
    have ih := redact_pairs_idem ks ps hps kvs
    by_cases hk : memStr (pyLower k) ks = true
    · have h1 : redactPairs ks ps ((k, v) :: kvs) =
          (k, JValue.str _REDACTED_VALUE) :: redactPairs ks ps kvs := by
        simp [redactPairs, hk]
      have h2 : redactPairs ks ps ((k, JValue.str _REDACTED_VALUE) :: redactPairs ks ps kvs) =
          (k, JValue.str _REDACTED_VALUE) :: redactPairs ks ps (redactPairs ks ps kvs) := by
        simp [redactPairs, hk]
      rw [h1, h2, ih]
    · have hv := redact_value_idem ks ps hps v
      have h1 : redactPairs ks ps ((k, v) :: kvs) =
          (k, _redact_value ks ps v) :: redactPairs ks ps kvs := by
        simp [redactPairs, hk]
      have h2 : redactPairs ks ps ((k, _redact_value ks ps v) :: redactPairs ks ps kvs) =
          (k, _redact_value ks ps (_redact_value ks ps v)) ::
            redactPairs ks ps (redactPairs ks ps kvs) := by
        simp [redactPairs, hk]
      rw [h1, h2, hv, ih]
termination_by structural kvs => kvs

end

/-- Redaction of a non-`None` value is non-`None`. -/
theorem redact_value_ne_null (ks : List String) (ps : List (String → String))
    (v : JValue) (h : v ≠ JValue.null) : _redact_value ks ps v ≠ JValue.null := by
  cases v with
  | null => exact absurd rfl h
  | bool b => simp [_redact_value]
  | int n => simp [_redact_value]
  | str s => simp [_redact_value]
  | arr xs => simp [_redact_value]
  | obj kvs => simp [_redact_value]

/-- Counterexample to C4 as stated: under the enabled configuration whose one
pattern is the case-insensitive literal regex `"a"` (every such literal
compiles in `_compile_pattern`), the message `"A"` redacts once to
`"[REDACTED]"`, but the pattern also matches inside the sentinel, so a second
redaction differs — redaction is not idempotent for every configured pattern
list. -/
theorem redact_event_not_idempotent :
    redact_event ⟨true, "guck", ⟨true, [], [literalSub "a"]⟩⟩
        (redact_event ⟨true, "guck", ⟨true, [], [literalSub "a"]⟩⟩
          ⟨.str "id0", .str "t0", "info", .str "log", .str "s", .str "r",
           .obj [("kind", .str "sdk")], none, some (.str "A"), none, none, none, none⟩) ≠
      redact_event ⟨true, "guck", ⟨true, [], [literalSub "a"]⟩⟩
        ⟨.str "id0", .str "t0", "info", .str "log", .str "s", .str "r",
         .obj [("kind", .str "sdk")], none, some (.str "A"), none, none, none, none⟩ := by
  decide

/-- C4 amended: `redact_event` is idempotent for every configuration whose
combined pattern substitution is idempotent on strings — in particular
whenever the pattern list is empty, so pure key-based redaction is always
idempotent.  (The counterexample shows the unrestricted claim fails: a
pattern that matches inside the sentinel, or inside rewritten output,
breaks idempotence.) -/
theorem redact_event_idempotent_of_subst_idempotent (config : Config)
    (hps : ∀ s, _redact_string (_redact_string s config.redaction.patterns)
        config.redaction.patterns = _redact_string s config.redaction.patterns)
    (event : Event) :
    redact_event config (redact_event config event) = redact_event config event := by
  by_cases he : config.redaction.enabled
  · simp only [redact_event, he, Bool.not_true, Bool.false_eq_true, if_false]
    refine Event.mk.injEq .. ▸ ⟨rfl, rfl, rfl, rfl, rfl, rfl, rfl, rfl, ?_, ?_, ?_, rfl, rfl⟩
    · match hm : event.message with
      | none => rfl
      | some (.str s) => simp [hps]
      | some .null => rfl
      | some (.bool b) => rfl
      | some (.int n) => rfl
      | some (.arr xs) => rfl
      | some (.obj kvs) => rfl
    · match hd : event.data with
      | none => rfl
      | some v =>
        by_cases hv : v = JValue.null
        · subst hv; simp
        · simp only [if_neg hv,
            if_neg (redact_value_ne_null (_normalize_key_set config.redaction.keys)
              config.redaction.patterns v hv)]
          exact congrArg some (redact_value_idem _ _ hps v)
    · match ht : event.tags with
      | none => rfl
      | some v =>
        by_cases hv : v = JValue.null
        · subst hv; simp
        · simp only [if_neg hv,
            if_neg (redact_value_ne_null (_normalize_key_set config.redaction.keys)
              config.redaction.patterns v hv)]
          exact congrArg some (redact_value_idem _ _ hps v)
  · simp only [redact_event, eq_self_iff_true]
    simp [he]

/-- Witness for the amended C4: the default key set with an empty pattern
list is idempotent on a nested event. -/
theorem redact_event_idempotent_witness :
    redact_event ⟨true, "guck", ⟨true, ["token", "password"], []⟩⟩
        (redact_event ⟨true, "guck", ⟨true, ["token", "password"], []⟩⟩
          ⟨.str "id0", .str "t0", "info", .str "log", .str "s", .str "r",
           .obj [("kind", .str "sdk")], none, some (.str "hello"),
           some (.obj [("Token", .int 3), ("x", .arr [.str "y"])]), none, none, none⟩) =
      redact_event ⟨true, "guck", ⟨true, ["token", "password"], []⟩⟩
        ⟨.str "id0", .str "t0", "info", .str "log", .str "s", .str "r",
         .obj [("kind", .str "sdk")], none, some (.str "hello"),
         some (.obj [("Token", .int 3), ("x", .arr [.str "y"])]), none, none, none⟩ :=
  redact_event_idempotent_of_subst_idempotent
    ⟨true, "guck", ⟨true, ["token", "password"], []⟩⟩ (fun _ => rfl)
    ⟨.str "id0", .str "t0", "info", .str "log", .str "s", .str "r",
     .obj [("kind", .str "sdk")], none, some (.str "hello"),
     some (.obj [("Token", .int 3), ("x", .arr [.str "y"])]), none, none, none⟩

/-! ## C5 -/

/-- `_coalesce` never returns `None` when its default is not `None`. -/
theorem coalesce_ne_null (f : Option JValue) (d : JValue) (hd : d ≠ JValue.null) :
    _coalesce f d ≠ JValue.null := by
  cases f with
  | none => exact hd
  | some v =>
    by_cases hv : v = JValue.null
    · simpa [_coalesce, hv] using hd
    · simp [_coalesce, hv]

/-- The optional-field guard keeps exactly the present non-`None` values. -/
theorem presentNonNull_eq_some (f : Option JValue) (v : JValue) :
    presentNonNull f = some v ↔ (f = some v ∧ v ≠ JValue.null) := by
  cases f with
  | none => simp [presentNonNull]
  | some w =>
    by_cases hw : w = JValue.null
    · subst hw
      constructor
      · intro h
        simp [presentNonNull] at h
      · rintro ⟨h1, h2⟩
        exact absurd (Option.some.inj h1).symm h2
    · simp only [presentNonNull, if_neg hw]
      constructor
      · intro h
        obtain rfl := Option.some.inj h
        exact ⟨rfl, hw⟩
      · rintro ⟨h1, _⟩
        exact h1

/-- The optional-field guard never produces a present `None`. -/
theorem presentNonNull_ne_some_null (f : Option JValue) :
    presentNonNull f ≠ some JValue.null := by
  intro h
  exact ((presentNonNull_eq_some f JValue.null).mp h).2 rfl

/-- The `session_id` coalesce never produces a present `None` when its
default cannot. -/
theorem coalesceOpt_ne_some_null (f : Option JValue) (d : Option JValue)
    (hd : d ≠ some JValue.null) : coalesceOpt f d ≠ some JValue.null := by
  cases f with
  | none => exact hd
  | some v =>
    by_cases hv : v = JValue.null
    · simpa [coalesceOpt, hv] using hd
    · simp only [coalesceOpt, if_neg hv]
      intro h
      exact hv (Option.some.inj h)

/-- C5: the normalized event has no `None`-valued field.  The seven required
fields are never `None` (they fall back to the generated id, the current
timestamp, `"log"`, the configured service, the process run id, and
`{kind: "sdk"}` whenever the input omits them or passes `None`); each
optional passthrough field is present exactly when the input supplies a
non-`None` value; and `session_id` is present exactly when the input or the
process-level default supplies a non-`None` value. -/
theorem to_event_no_null_fields (input_event : InputEvent) (gp : GenParams)
    (defaultService : String) :
    ((_to_event input_event gp defaultService).id ≠ JValue.null) ∧
    ((_to_event input_event gp defaultService).ts ≠ JValue.null) ∧
    ((_to_event input_event gp defaultService).type ≠ JValue.null) ∧
    ((_to_event input_event gp defaultService).service ≠ JValue.null) ∧
    ((_to_event input_event gp defaultService).run_id ≠ JValue.null) ∧
    ((_to_event input_event gp defaultService).source ≠ JValue.null) ∧
    ((_to_event input_event gp defaultService).session_id ≠ some JValue.null) ∧
    (∀ v, (_to_event input_event gp defaultService).message = some v ↔
      (input_event.message = some v ∧ v ≠ JValue.null)) ∧
    (∀ v, (_to_event input_event gp defaultService).data = some v ↔
      (input_event.data = some v ∧ v ≠ JValue.null)) ∧
    (∀ v, (_to_event input_event gp defaultService).tags = some v ↔
      (input_event.tags = some v ∧ v ≠ JValue.null)) ∧
    (∀ v, (_to_event input_event gp defaultService).trace_id = some v ↔
      (input_event.trace_id = some v ∧ v ≠ JValue.null)) ∧
    (∀ v, (_to_event input_event gp defaultService).span_id = some v ↔
      (input_event.span_id = some v ∧ v ≠ JValue.null)) ∧
    ((input_event.id = none ∨ input_event.id = some JValue.null) →
      (_to_event input_event gp defaultService).id = .str gp.genId) ∧
    ((input_event.ts = none ∨ input_event.ts = some JValue.null) →
      (_to_event input_event gp defaultService).ts = .str gp.nowIso) ∧
    ((input_event.service = none ∨ input_event.service = some JValue.null) →
      (_to_event input_event gp defaultService).service = .str defaultService) ∧
    (∀ v, input_event.session_id = some v → v ≠ JValue.null →
      (_to_event input_event gp defaultService).session_id = some v) ∧
    ((input_event.session_id = none ∨ input_event.session_id = some JValue.null) →
      (_to_event input_event gp defaultService).session_id =
        gp.defaultSessionId.map JValue.str) := by
  have hdefault : gp.defaultSessionId.map JValue.str ≠ some JValue.null := by
    cases gp.defaultSessionId with
    | none => simp
    | some s => simp
  refine ⟨coalesce_ne_null _ _ (by simp), coalesce_ne_null _ _ (by simp),
    coalesce_ne_null _ _ (by simp), coalesce_ne_null _ _ (by simp),
    coalesce_ne_null _ _ (by simp), coalesce_ne_null _ _ (by simp),
    coalesceOpt_ne_some_null _ _ hdefault,
    fun v => presentNonNull_eq_some _ v, fun v => presentNonNull_eq_some _ v,
    fun v => presentNonNull_eq_some _ v, fun v => presentNonNull_eq_some _ v,
    fun v => presentNonNull_eq_some _ v, ?_, ?_, ?_, ?_, ?_⟩
  · rintro (h | h) <;> simp [_to_event, _coalesce, h]
  · rintro (h | h) <;> simp [_to_event, _coalesce, h]
  · rintro (h | h) <;> simp [_to_event, _coalesce, h]
  · intro v hv hvn
    simp [_to_event, coalesceOpt, hv, hvn]
  · rintro (h | h) <;> simp [_to_event, coalesceOpt, h]

/-- Witness for C5: an input with a `None` id, a `None` data field, a real
message and no session seed produces an event with the generated id, an
absent `data`, and the message present. -/
theorem to_event_no_null_fields_witness :
    (_to_event ⟨some .null, none, none, none, none, none, some .null,
        some (.str "hello"), some .null, none, none, none, none⟩
      ⟨"gen0", "now0", "run0", none⟩ "svc").id = .str "gen0" ∧
    (_to_event ⟨some .null, none, none, none, none, none, some .null,
        some (.str "hello"), some .null, none, none, none, none⟩
      ⟨"gen0", "now0", "run0", none⟩ "svc").message = some (.str "hello") ∧
    ¬ ((_to_event ⟨some .null, none, none, none, none, none, some .null,
        some (.str "hello"), some .null, none, none, none, none⟩
      ⟨"gen0", "now0", "run0", none⟩ "svc").data = some JValue.null) :=
  ⟨(to_event_no_null_fields _ _ _).2.2.2.2.2.2.2.2.2.2.2.2.1 (Or.inr rfl),
   ((to_event_no_null_fields _ _ _).2.2.2.2.2.2.2.1 (.str "hello")).mpr
     ⟨rfl, fun h => JValue.noConfusion h⟩,
   fun h => (((to_event_no_null_fields _ _ _).2.2.2.2.2.2.2.2.1 JValue.null).mp h).2 rfl⟩

/-! ## C7 -/

/-- Appending to an absolute path stays absolute. -/
theorem isAbsPath_append (a b : String) (ha : isAbsPath a = true) :
    isAbsPath (a ++ b) = true := by
  unfold isAbsPath at ha ⊢
  rw [String.data_append]
  match h : a.data with
  | [] =>
    rw [h] at ha
    exact absurd ha (by simp)
  | c :: rest =>
    rw [h] at ha
    simpa using ha

/-- A `pathlib` join with an absolute left operand is absolute. -/
theorem isAbsPath_pathJoin (a b : String) (ha : isAbsPath a = true) :
    isAbsPath (pathJoin a b) = true := by
  unfold pathJoin
  by_cases hb : isAbsPath b = true
  · simp [hb]
  · have hae : a ≠ "" := by
      intro h
      subst h
      simp [isAbsPath] at ha
    simp only [Bool.not_eq_true] at hb
    simp only [hb, hae, if_false, Bool.false_eq_true]
    exact isAbsPath_append _ _ (isAbsPath_append _ _ ha)

/-- Counterexample to C7 as stated: `append_event` returns `str(file_path)`
without resolving it, so with the relative store directory `"logs"` (for
example from a relative `GUCK_DIR`) the returned path is relative, not
absolute. -/
theorem append_event_returns_relative_path :
    (append_event "logs"
      ⟨.str "id1", .str "2024-01-02T03:04:05Z", "info", .str "log", .str "s", .str "r",
       .obj [("kind", .str "sdk")], none, none, none, none, none, none⟩ 0).1 =
      "logs/s/2024-01-02/r.jsonl" ∧
    isAbsPath "logs/s/2024-01-02/r.jsonl" = false := by
  decide

/-- C7 amended: `append_event` returns the joined path
`storeDir/service/YYYY-MM-DD/run_id.jsonl` (absolute whenever `storeDir` is
absolute, but not resolved further); its effects contain exactly one file
append, of the serialized event followed by one newline, at that path; and
when the event's `ts` parses, the date segment — and the whole call — is
independent of the wall-clock time. -/
theorem append_event_spec (store_dir : String) (event : Event) (now : Int)
    (svc rid : String) (hs : event.service = .str svc) (hr : event.run_id = .str rid) :
    ((append_event store_dir event now).1 =
      pathJoin (pathJoin (pathJoin store_dir svc)
        (_format_date_segment (_parse_timestamp event.ts now))) (rid ++ ".jsonl")) ∧
    ((append_event store_dir event now).2.filter isAppendOp =
      [FsOp.append (append_event store_dir event now).1 (jsonDumpsEvent event ++ "\n")]) ∧
    (∀ sTs, event.ts = .str sTs → parseIsoEpoch (tsCandidate sTs) ≠ none →
      ∀ now2, append_event store_dir event now2 = append_event store_dir event now) ∧
    (isAbsPath store_dir = true → isAbsPath (append_event store_dir event now).1 = true) := by
  refine ⟨?_, ?_, ?_, ?_⟩
  · simp [append_event, hs, hr, pyStr]
  · simp [append_event, isAppendOp]
  · intro sTs hts hparse now2
    have hsame : _parse_timestamp event.ts now2 = _parse_timestamp event.ts now := by
      rw [hts]
      unfold _parse_timestamp
      cases hp : parseIsoEpoch (tsCandidate sTs) with
      | some t => simp [hp]
      | none => exact absurd hp hparse
    simp only [append_event, hsame]
  · intro habs
    exact isAbsPath_pathJoin _ _ (isAbsPath_pathJoin _ _ (isAbsPath_pathJoin _ _ habs))

/-- Witness for the amended C7 at an absolute store directory and a
millisecond-precision UTC timestamp: the concrete path, the wall-clock
independence, and absoluteness. -/
theorem append_event_spec_witness :
    ((append_event "/var/store"
      ⟨.str "id1", .str "2024-01-02T03:04:05.123Z", "info", .str "log", .str "svc",
       .str "r1", .obj [("kind", .str "sdk")], none, none, none, none, none, none⟩ 0).1 =
      "/var/store/svc/2024-01-02/r1.jsonl") ∧
    (append_event "/var/store"
      ⟨.str "id1", .str "2024-01-02T03:04:05.123Z", "info", .str "log", .str "svc",
       .str "r1", .obj [("kind", .str "sdk")], none, none, none, none, none, none⟩ 12345 =
     append_event "/var/store"
      ⟨.str "id1", .str "2024-01-02T03:04:05.123Z", "info", .str "log", .str "svc",
       .str "r1", .obj [("kind", .str "sdk")], none, none, none, none, none, none⟩ 0) ∧
    (isAbsPath (append_event "/var/store"
      ⟨.str "id1", .str "2024-01-02T03:04:05.123Z", "info", .str "log", .str "svc",
       .str "r1", .obj [("kind", .str "sdk")], none, none, none, none, none, none⟩ 0).1 =
      true) :=
  ⟨((append_event_spec "/var/store"
      ⟨.str "id1", .str "2024-01-02T03:04:05.123Z", "info", .str "log", .str "svc",
       .str "r1", .obj [("kind", .str "sdk")], none, none, none, none, none, none⟩ 0
      "svc" "r1" rfl rfl).1).trans (by decide),
   (append_event_spec "/var/store"
      ⟨.str "id1", .str "2024-01-02T03:04:05.123Z", "info", .str "log", .str "svc",
       .str "r1", .obj [("kind", .str "sdk")], none, none, none, none, none, none⟩ 0
      "svc" "r1" rfl rfl).2.2.1 "2024-01-02T03:04:05.123Z" rfl (by decide) 12345,
   (append_event_spec "/var/store"
      ⟨.str "id1", .str "2024-01-02T03:04:05.123Z", "info", .str "log", .str "svc",
       .str "r1", .obj [("kind", .str "sdk")], none, none, none, none, none, none⟩ 0
      "svc" "r1" rfl rfl).2.2.2 rfl⟩
